import Mathlib

/-!
Verification of the optical-parameter extraction core of the
`optical_parameter_extraction` repository.

The development shallowly embeds the two core source files:

* `src/core/window_functions.py` — `apply_tukey_window` (a Tukey time-gate),
  including scipy's `signal.windows.tukey` taper construction; and
* `src/core/calculator.py` — `calculate_optical_params`, the engine that
  aligns sample waveforms against a reference, optionally windows them,
  runs an FFT, and derives n / k / α / ε' / ε'' / tanδ per sample.

Waveforms are lists of `(time, amplitude)` pairs over `ℝ`.  Fallible numpy
operations (boolean-mask indexing with mismatched lengths, elementwise
broadcasting of incompatible shapes, out-of-range indexing) are modelled in
the `Except String` monad; the `try/except` wrapper that re-raises a
`CalculationError` is the final `calculate_optical_params` definition.
Plot-only computations (`refFAdB`, `samFAdB`, the matplotlib figures) are
outside the modelled core, as are file reading and progress callbacks.
-/

/-- Speed of light constant `C_LIGHT = 3e8` from `calculator.py`. -/
def C_LIGHT : ℝ := 3e8

/-- Checked list indexing: `xs[i]` raising `IndexError` when out of range,
as Python/numpy integer indexing does. -/
def listGet {α : Type} (xs : List α) (i : ℕ) : Except String α :=
  match xs.get? i with
  | some x => Except.ok x
  | none => Except.error "IndexError: index out of range"

/-- Checked `xs[-1]` (last element), raising `IndexError` on an empty list. -/
def listGetLast {α : Type} (xs : List α) : Except String α :=
  match xs.getLast? with
  | some x => Except.ok x
  | none => Except.error "IndexError: index out of range"

/-- Elementwise numpy binary operation on two 1-D arrays: equal lengths zip
elementwise, a length-1 operand broadcasts, anything else raises a
broadcast `ValueError`. -/
def npBinop {α β : Type} (f : α → α → β) (xs ys : List α) : Except String (List β) :=
  if xs.length = ys.length then Except.ok (List.zipWith f xs ys)
  else
    match xs, ys with
    | [x], ys => Except.ok (ys.map (fun y => f x y))
    | xs, [y] => Except.ok (xs.map (fun x => f x y))
    | _, _ => Except.error "ValueError: operands could not be broadcast together"

/-- The in-place update `a[0] = a[1] if len(a) > 1 else dflt` applied to the
DC bin of each derived array in `calculator.py` (lines 226, 231, 236). -/
def dcOverride (dflt : ℝ) : List ℝ → Except String (List ℝ)
  | [] => Except.error "IndexError: index 0 is out of bounds"
  | [_] => Except.ok [dflt]
  | _ :: y :: rest => Except.ok (y :: y :: rest)

/-- Python `round(N / 2)` for a natural `N`: exact halves round to the nearest
even integer (banker's rounding), which is what `round(len(reft)/2)` in
`calculator.py` line 196 computes. -/
def pyHalfRound (N : ℕ) : ℕ :=
  if N % 2 = 0 then N / 2
  else if (N / 2) % 2 = 0 then N / 2 else N / 2 + 1

/-- scipy `signal.windows.tukey(M, alpha)` (symmetric): ones for `M ≤ 1` or
`alpha ≤ 0`, a Hann window for `alpha ≥ 1`, otherwise a flat top with raised
cosine tapers of width `⌊alpha·(M-1)/2⌋` on both sides. -/
noncomputable def tukeyWindow (M : ℕ) (alpha : ℝ) : List ℝ :=
  if M ≤ 1 then List.replicate M 1
  else if alpha ≤ 0 then List.replicate M 1
  else if 1 ≤ alpha then
    (List.range M).map (fun (n : ℕ) =>
      0.5 - 0.5 * Real.cos (2 * Real.pi * (n : ℝ) / ((M : ℝ) - 1)))
  else
    let width : ℤ := ⌊alpha * ((M : ℝ) - 1) / 2⌋
    (List.range M).map (fun (n : ℕ) =>
      if (n : ℤ) ≤ width then
        0.5 * (1 + Real.cos (Real.pi * (-1 + 2 * (n : ℝ) / (alpha * ((M : ℝ) - 1)))))
      else if (n : ℤ) < (M : ℤ) - width - 1 then 1
      else
        0.5 * (1 + Real.cos (Real.pi * (-2 / alpha + 1 + 2 * (n : ℝ) / (alpha * ((M : ℝ) - 1))))))

/-- Scatter of the windowed sub-signal back into a zero-initialised output:
positions where the mask is `false` stay `0`, positions where it is `true`
consume successive values of `vs`. -/
def placeBack : List Bool → List ℝ → List ℝ
  | [], _ => []
  | false :: ms, vs => 0 :: placeBack ms vs
  | true :: ms, [] => 0 :: placeBack ms []
  | true :: ms, v :: vs => v :: placeBack ms vs

/-- `apply_tukey_window` from `window_functions.py`: builds the boolean mask
`t_start ≤ t ≤ t_end`, returns all zeros when the mask selects nothing,
otherwise multiplies the masked sub-signal by a Tukey taper and scatters it
back with zeros outside.  Boolean-mask indexing requires the mask (built from
`time_data`) and `signal_data` to have the same length, as in numpy. -/
noncomputable def apply_tukey_window (time_data signal_data : List ℝ)
    (t_start t_end alpha : ℝ) : Except String (List ℝ) :=
  if time_data.length = signal_data.length then
    let mask := time_data.map (fun t => decide (t_start ≤ t ∧ t ≤ t_end))
    if mask.any (fun b => b) = false then
      Except.ok (List.replicate signal_data.length 0)
    else
      let sigw := (mask.zip signal_data).filterMap (fun p => if p.1 then some p.2 else none)
      Except.ok (placeBack mask (List.zipWith (fun a b => a * b) sigw (tukeyWindow sigw.length alpha)))
  else Except.error "IndexError: boolean index did not match indexed array"

/-- Correction term numpy's `unwrap` (default `discont = π`, period `2π`)
adds for one consecutive phase difference `d`. -/
noncomputable def unwrapCorrection (d : ℝ) : ℝ :=
  if |d| < Real.pi then 0
  else
    let dm := d + Real.pi - 2 * Real.pi * ⌊(d + Real.pi) / (2 * Real.pi)⌋ - Real.pi
    (if dm = -Real.pi ∧ 0 < d then Real.pi else dm) - d

/-- Tail of `np.unwrap`: walks the remaining phases carrying the previous raw
phase and the accumulated correction. -/
noncomputable def unwrapAux : ℝ → ℝ → List ℝ → List ℝ
  | _, _, [] => []
  | prev, corr, q :: qs =>
      let corr2 := corr + unwrapCorrection (q - prev)
      (q + corr2) :: unwrapAux q corr2 qs

/-- `np.unwrap` on a phase sequence. -/
noncomputable def npUnwrap : List ℝ → List ℝ
  | [] => []
  | p :: ps => p :: unwrapAux p 0 ps

/-- `np.fft.fft`: discrete Fourier transform
`X[k] = Σ_n x[n]·exp(-2πi·k·n/N)` of a real signal, as a list of complex
spectrum values of the same length. -/
noncomputable def npFFT (x : List ℝ) : List ℂ :=
  (List.range x.length).map (fun (k : ℕ) =>
    ∑ n ∈ Finset.range x.length,
      ((x.getD n 0 : ℝ) : ℂ) *
        Complex.exp (-2 * Real.pi * Complex.I * (k : ℂ) * (n : ℂ) / (x.length : ℂ)))

/-- A per-waveform window parameter dictionary: each key of the Python dict
(`t_start`, `t_end`, `alpha`) may be present or absent. -/
structure WindowParams where
  t_start : Option ℝ
  t_end : Option ℝ
  alpha : Option ℝ

/-- Python truthiness of the parameter dict: `None` and `{}` are falsy, so a
dict is truthy exactly when at least one key is present. -/
def WindowParams.truthy (p : WindowParams) : Bool :=
  p.t_start.isSome || p.t_end.isSome || p.alpha.isSome

/-- The per-sample window entry the engine looks up:
`per_sample_window_params and i < len(per_sample_window_params) and
per_sample_window_params[i] is not None` collapses to `none` for a missing
list, an empty list, an out-of-range index, or a `None` entry. -/
def pswEntry (psw : Option (List (Option WindowParams))) (i : ℕ) : Option WindowParams :=
  match psw with
  | none => none
  | some l => l.getD i none

/-- The reference amplitude actually used downstream (`calculator.py` lines
111-119): windowed only when `use_window` is true *and* the reference dict is
truthy; the per-key defaults are `reft[0]`, `reft[-1]` and `0.5`, and the
index expressions are evaluated before the call, as in Python. -/
noncomputable def refaAfterWindow (reft refa : List ℝ) (use_window : Bool)
    (refW : Option WindowParams) : Except String (List ℝ) :=
  match use_window, refW with
  | true, some p =>
      if p.truthy then do
        let t0 ← listGet reft 0
        let tl ← listGetLast reft
        apply_tukey_window reft refa (p.t_start.getD t0) (p.t_end.getD tl) (p.alpha.getD 0.5)
      else Except.ok refa
  | _, _ => Except.ok refa

/-- The warning string appended at `calculator.py` line 156 for a sample whose
length mismatches the reference. -/
def warnMsg (name : String) (m : ℕ) : String :=
  "文件 " ++ name ++ " 的数据点数与参考文件不匹配，已自动截断至 " ++ toString m ++ " 个点"

/-- The message `DataLengthMismatchError` in `exceptions.py` would carry; the
calculator never constructs it when recording its truncation warning. -/
def dataLengthMismatchMessage (sample_name : String)
    (ref_length sample_length truncated_length : ℕ) : String :=
  "文件 '" ++ sample_name ++ "' 的数据点数(" ++ toString sample_length ++
    ")与参考文件(" ++ toString ref_length ++ ")不匹配，已自动截断至 " ++
    toString truncated_length ++ " 个点"

/-- Mutable locals of the sample-reading loop: the (possibly truncated)
reference time axis and amplitudes, the *unchanged* row count of the original
reference `DataFrame` (the loop's mismatch test keeps comparing against it),
and the warnings accumulated so far. -/
structure LoopState where
  reft : List ℝ
  refa : List ℝ
  refDataLen : ℕ
  warnings : List String

/-- Length-mismatch handling of `calculator.py` lines 147-158: on a mismatch
both series are cut to `min` length (the reference arrays only when the
reference is the longer one; `refData` itself is never reassigned) and one
warning is appended. -/
def truncStep (st : LoopState) (sam : List (ℝ × ℝ)) (name : String) :
    LoopState × List (ℝ × ℝ) :=
  if sam.length ≠ st.refDataLen then
    let m := min sam.length st.refDataLen
    let st2 := if st.refDataLen > m then
        { st with reft := st.reft.take m, refa := st.refa.take m }
      else st
    ({ st2 with warnings := st2.warnings ++ [warnMsg name m] }, sam.take m)
  else (st, sam)

/-- One iteration of the sample-reading loop (`calculator.py` lines 141-180):
alignment, extraction of the amplitude column, then optional windowing *with
the reference time axis* when the sample's window entry is not `None`. -/
noncomputable def processOne (use_window : Bool) (entry : Option WindowParams)
    (st : LoopState) (sam : List (ℝ × ℝ)) (name : String) :
    Except String (LoopState × List ℝ) :=
  let pr := truncStep st sam name
  let sama := pr.2.map Prod.snd
  match use_window, entry with
  | true, some p => do
      let t0 ← listGet pr.1.reft 0
      let tl ← listGetLast pr.1.reft
      let w ← apply_tukey_window pr.1.reft sama (p.t_start.getD t0) (p.t_end.getD tl)
        (p.alpha.getD 0.5)
      Except.ok (pr.1, w)
  | _, _ => Except.ok (pr.1, sama)

/-- The whole sample-reading loop, indexed so that the `i`-th sample uses
`sam_names[i]` (an `IndexError` when the name list is too short) and the
`i`-th window entry. -/
noncomputable def readAll (use_window : Bool) (psw : Option (List (Option WindowParams)))
    (names : List String) : ℕ → LoopState → List (List (ℝ × ℝ)) →
    Except String (LoopState × List (List ℝ))
  | _, st, [] => Except.ok (st, [])
  | i, st, sam :: rest => do
      let name ← listGet names i
      let pr ← processOne use_window (pswEntry psw i) st sam name
      let rst ← readAll use_window psw names (i + 1) pr.1 rest
      Except.ok (rst.1, pr.2 :: rst.2)

/-- Per-sample block of optical-parameter arrays (`all_Nsam[i]`, `all_Ksam[i]`,
`all_Asam[i]`, `all_Epsilon_real[i]`, `all_Epsilon_imag[i]`,
`all_TanDelta[i]` of one loop iteration in `calculator.py` lines 210-251). -/
structure SampleOut where
  Nsam : List ℝ
  Ksam : List ℝ
  Asam : List ℝ
  Epsilon_real : List ℝ
  Epsilon_imag : List ℝ
  TanDelta : List ℝ

instance : Inhabited SampleOut := ⟨⟨[], [], [], [], [], []⟩⟩

/-- One iteration of the spectrum loop (`calculator.py` lines 210-251):
transfer function restricted to the first `Na` bins, magnitude, unwrapped
phase, then the n / k / α / ε' / ε'' / tanδ formulas with their DC-bin
overrides and the explicit `ε' ≠ 0` mask guarding the loss tangent. -/
noncomputable def sampleCompute (refFFT : List ℂ) (F : List ℝ) (Na : ℕ) (d : ℝ)
    (sama : List ℝ) : Except String SampleOut := do
  let samFFT := npFFT sama
  let H0full ← npBinop (fun a b => a / b) samFFT refFFT
  let H0 := H0full.take Na
  let rho0 := H0.map Complex.abs
  let phi := H0.map Complex.arg
  let phiu0 := npUnwrap phi
  let nsamRaw ← npBinop
    (fun p f => 1 - p * C_LIGHT / (2 * Real.pi * f * 1e12 * d * 1e-3)) phiu0 F
  let nsam ← dcOverride 1 nsamRaw
  let q1 ← npBinop (fun n r => 4 * n / r) nsam rho0
  let q2 ← npBinop (fun t n => t / (n + 1) ^ 2) q1 nsam
  let ksamRaw ← npBinop
    (fun t f => Real.log t * C_LIGHT / (2 * Real.pi * f * 1e12 * d * 1e-3)) q2 F
  let ksam ← dcOverride 0 ksamRaw
  let asamRaw ← npBinop
    (fun f k => 2 * 2 * Real.pi * f * 1e12 * k / C_LIGHT / 100) F ksam
  let asam ← dcOverride 0 asamRaw
  let epsr ← npBinop (fun n k => n ^ 2 - k ^ 2) nsam ksam
  let epsi ← npBinop (fun n k => 2 * n * k) nsam ksam
  let tand ← npBinop (fun x y => if x = 0 then 0 else y / x) epsr epsi
  Except.ok ⟨nsam, ksam, asam, epsr, epsi, tand⟩

/-- Sequencing of a fallible computation over a list, mirroring the
per-sample `for` loop of the spectrum stage: the first failure aborts. -/
def exceptMapList {α β : Type} (f : α → Except String β) :
    List α → Except String (List β)
  | [] => Except.ok []
  | x :: xs => do
      let y ← f x
      let ys ← exceptMapList f xs
      Except.ok (y :: ys)

/-- FFT stage of the engine (`calculator.py` lines 192-251): sampling
parameters from the (possibly truncated) reference time axis, the kept-bin
count `Na = round(N/2)+1`, the frequency axis `F = df·arange(0, N//2+1)`, the
reference spectrum, and every sample's derived arrays. -/
noncomputable def fftPhase (reft refa : List ℝ) (samas : List (List ℝ)) (d : ℝ) :
    Except String (List ℝ × List SampleOut) := do
  let N := reft.length
  let t1 ← listGet reft 1
  let t0 ← listGet reft 0
  let fs := 1 / (t1 - t0)
  let df := fs / (N : ℝ)
  let Na := pyHalfRound N + 1
  let F := (List.range (N / 2 + 1)).map (fun (i : ℕ) => df * (i : ℝ))
  let refFFT := npFFT refa
  let outs ← exceptMapList (sampleCompute refFFT F Na d) samas
  Except.ok (F, outs)

/-- The `CalculationResult` payload the engine assembles on success
(`calculator.py` lines 274-288): frequency axis, per-sample arrays, the
collected warnings, the sample names, and the success flag. -/
structure CalculationResult where
  F : List ℝ
  samplesOut : List SampleOut
  warnings : List String
  sam_names : List String
  success : Bool

/-- Body of the `try` block of `calculate_optical_params`: reference
preparation and windowing, the sample-reading loop, the FFT stage, and result
assembly with `success = True`. -/
noncomputable def calcCore (ref : List (ℝ × ℝ)) (samples : List (List (ℝ × ℝ)))
    (names : List String) (d : ℝ) (use_window : Bool) (refW : Option WindowParams)
    (psw : Option (List (Option WindowParams))) : Except String CalculationResult := do
  let reft := ref.map Prod.fst
  let refa0 := ref.map Prod.snd
  let refa ← refaAfterWindow reft refa0 use_window refW
  let pr ← readAll use_window psw names 0 ⟨reft, refa, ref.length, []⟩ samples
  let fr ← fftPhase pr.1.reft pr.1.refa pr.2 d
  Except.ok ⟨fr.1, fr.2, pr.1.warnings, names, true⟩

/-- `calculate_optical_params`: the `try/except` wrapper re-raises any internal
exception as a single `CalculationError` whose text prefixes the original
message (`calculator.py` lines 293-295 together with `exceptions.py` line 47). -/
noncomputable def calculate_optical_params (ref : List (ℝ × ℝ))
    (samples : List (List (ℝ × ℝ))) (names : List String) (d : ℝ)
    (use_window : Bool) (refW : Option WindowParams)
    (psw : Option (List (Option WindowParams))) : Except String CalculationResult :=
  match calcCore ref samples names d use_window refW psw with
  | Except.ok r => Except.ok r
  | Except.error e => Except.error ("计算过程中出错: " ++ e)

/-! ### Basic lemmas about the `Except` plumbing and the numpy primitives -/

theorem exceptBind_ok {α β : Type} {x : Except String α} {f : α → Except String β}
    {b : β} (h : (x >>= f) = Except.ok b) : ∃ a, x = Except.ok a ∧ f a = Except.ok b := by
  cases x with
  | ok a => exact ⟨a, rfl, h⟩
  | error e => simp [Bind.bind, Except.bind] at h

theorem listGet_ok_lt {α : Type} {xs : List α} {i : ℕ} {a : α}
    (h : listGet xs i = Except.ok a) : i < xs.length := by
  unfold listGet at h
  cases hg : xs.get? i with
  | some x => exact List.get?_eq_some.mp hg |>.1
  | none => rw [hg] at h; cases h

theorem listGet_ok_getD {α : Type} {xs : List α} {i : ℕ} {a : α} (d : α)
    (h : listGet xs i = Except.ok a) : xs.getD i d = a := by
  unfold listGet at h
  cases hg : xs.get? i with
  | some x =>
      rw [hg] at h
      cases h
      rw [List.getD_eq_getElem?_getD, ← List.get?_eq_getElem?, hg]
      rfl
  | none => rw [hg] at h; cases h

theorem npBinop_eq_len {α β : Type} (f : α → α → β) {xs ys : List α}
    (h : xs.length = ys.length) :
    npBinop f xs ys = Except.ok (List.zipWith f xs ys) := by
  unfold npBinop
  rw [if_pos h]

theorem npBinop_ok_len_left {α β : Type} {f : α → α → β} {xs ys : List α}
    {zs : List β} (h : npBinop f xs ys = Except.ok zs) (hx : 1 < xs.length) :
    zs.length = xs.length := by
  unfold npBinop at h
  by_cases heq : xs.length = ys.length
  · rw [if_pos heq] at h
    cases h
    rw [List.length_zipWith]
    omega
  · rw [if_neg heq] at h
    rcases xs with _ | ⟨x, _ | ⟨x2, xt⟩⟩ <;> rcases ys with _ | ⟨y, _ | ⟨y2, yt⟩⟩ <;>
      simp_all
    rw [← h]
    simp

theorem npBinop_ok_len_right {α β : Type} {f : α → α → β} {xs ys : List α}
    {zs : List β} (h : npBinop f xs ys = Except.ok zs) (hy : 1 < ys.length) :
    zs.length = ys.length := by
  unfold npBinop at h
  by_cases heq : xs.length = ys.length
  · rw [if_pos heq] at h
    cases h
    rw [List.length_zipWith]
    omega
  · rw [if_neg heq] at h
    rcases xs with _ | ⟨x, _ | ⟨x2, xt⟩⟩ <;> rcases ys with _ | ⟨y, _ | ⟨y2, yt⟩⟩ <;>
      simp_all
    rw [← h]
    simp

theorem npBinop_ok_len_pair {α β γ : Type} {f : α → α → β} {g : α → α → γ}
    {xs ys : List α} {zs : List β} {ws : List γ}
    (h1 : npBinop f xs ys = Except.ok zs) (h2 : npBinop g xs ys = Except.ok ws) :
    zs.length = ws.length := by
  unfold npBinop at h1 h2
  by_cases heq : xs.length = ys.length
  · rw [if_pos heq] at h1 h2
    cases h1; cases h2; simp [List.length_zipWith]
  · rw [if_neg heq] at h1 h2
    rcases xs with _ | ⟨x, _ | ⟨x2, xt⟩⟩ <;> rcases ys with _ | ⟨y, _ | ⟨y2, yt⟩⟩ <;>
      simp_all
    all_goals rw [← h1, ← h2]; simp

theorem dcOverride_ok_len {dflt : ℝ} {xs ys : List ℝ}
    (h : dcOverride dflt xs = Except.ok ys) : ys.length = xs.length := by
  match xs with
  | [] => cases h
  | [a] => cases h; rfl
  | a :: b :: t => cases h; rfl

theorem dcOverride_ok_dc {dflt : ℝ} {xs ys : List ℝ}
    (h : dcOverride dflt xs = Except.ok ys) (hx : 1 < xs.length) :
    ys.getD 0 0 = ys.getD 1 0 := by
  match xs with
  | [] => cases h
  | [a] => simp at hx
  | a :: b :: t => cases h; rfl

theorem dcOverride_ok_one {dflt : ℝ} {xs ys : List ℝ}
    (h : dcOverride dflt xs = Except.ok ys) (hx : xs.length = 1) : ys = [dflt] := by
  match xs with
  | [] => cases h
  | [a] => cases h; rfl
  | a :: b :: t => simp at hx

theorem exceptMapList_ok_length {α β : Type} {f : α → Except String β}
    {xs : List α} {ys : List β} (h : exceptMapList f xs = Except.ok ys) :
    ys.length = xs.length := by
  induction xs generalizing ys with
  | nil => cases h; rfl
  | cons x xt ih =>
      unfold exceptMapList at h
      obtain ⟨y, hy, h2⟩ := exceptBind_ok h
      obtain ⟨yt, hyt, h3⟩ := exceptBind_ok h2
      cases h3
      simp [ih hyt]

theorem exceptMapList_ok_getD {α β : Type} {f : α → Except String β}
    {xs : List α} {ys : List β} (h : exceptMapList f xs = Except.ok ys)
    (dx : α) (dy : β) : ∀ k, k < xs.length → f (xs.getD k dx) = Except.ok (ys.getD k dy) := by
  induction xs generalizing ys with
  | nil => intro k hk; simp at hk
  | cons x xt ih =>
      unfold exceptMapList at h
      obtain ⟨y, hy, h2⟩ := exceptBind_ok h
      obtain ⟨yt, hyt, h3⟩ := exceptBind_ok h2
      cases h3
      intro k hk
      match k with
      | 0 => simpa using hy
      | k + 1 =>
          simp only [List.getD_cons_succ]
          exact ih hyt k (by simpa using hk)

theorem placeBack_length (ms : List Bool) (vs : List ℝ) :
    (placeBack ms vs).length = ms.length := by
  induction ms generalizing vs with
  | nil => rfl
  | cons b mt ih =>
      cases b with
      | false => simp [placeBack, ih]
      | true => cases vs with
        | nil => simp [placeBack, ih]
        | cons v vt => simp [placeBack, ih]

theorem placeBack_getD_zero {ms : List Bool} {i : ℕ} (vs : List ℝ)
    (h : ms.getD i true = false) : (placeBack ms vs).getD i 0 = 0 := by
  induction ms generalizing vs i with
  | nil => simp at h
  | cons b mt ih =>
      match i with
      | 0 =>
          cases b with
          | false => cases vs <;> rfl
          | true => simp at h
      | i + 1 =>
          simp only [List.getD_cons_succ] at h
          cases b with
          | false => simpa [placeBack] using ih vs h
          | true => cases vs with
            | nil => simpa [placeBack] using ih [] h
            | cons v vt => simpa [placeBack] using ih vt h

theorem apply_tukey_ok_len {time_data signal_data : List ℝ} {ts te al : ℝ}
    {w : List ℝ} (h : apply_tukey_window time_data signal_data ts te al = Except.ok w) :
    w.length = signal_data.length := by
  unfold apply_tukey_window at h
  by_cases hl : time_data.length = signal_data.length
  · rw [if_pos hl] at h
    by_cases hm : (List.map (fun t => decide (ts ≤ t ∧ t ≤ te)) time_data).any (fun b => b) = false
    · rw [if_pos hm] at h
      cases h
      simp
    · rw [if_neg hm] at h
      cases h
      rw [placeBack_length, List.length_map, hl]
  · rw [if_neg hl] at h
    cases h

/-! ### Evaluation lemmas for impulse-shaped signals -/

theorem getD_replicate_self {α : Type} (a : α) (m i : ℕ) :
    (List.replicate m a).getD i a = a := by
  rw [List.getD_eq_getElem?_getD, List.getElem?_replicate]
  split <;> rfl

theorem zipWith_rep_rep {α β γ : Type} (f : α → β → γ) (n : ℕ) (a : α) (b : β) :
    List.zipWith f (List.replicate n a) (List.replicate n b) = List.replicate n (f a b) := by
  induction n with
  | zero => rfl
  | succ m ih => simp [List.replicate_succ, ih]

theorem zipWith_rep_left {α β γ : Type} (f : α → β → γ) (a : α) (l : List β) :
    List.zipWith f (List.replicate l.length a) l = l.map (f a) := by
  induction l with
  | nil => rfl
  | cons x xs ih => simp [List.replicate_succ, ih]

theorem zipWith_rep_right {α β γ : Type} (f : α → β → γ) (b : β) (l : List α) :
    List.zipWith f l (List.replicate l.length b) = l.map (fun x => f x b) := by
  induction l with
  | nil => rfl
  | cons x xs ih => simp [List.replicate_succ, ih]

theorem npFFT_impulse (m : ℕ) :
    npFFT (1 :: List.replicate m 0) = List.replicate (m + 1) 1 := by
  have hlen : (1 :: List.replicate m 0 : List ℝ).length = m + 1 := by simp
  unfold npFFT
  rw [hlen]
  refine List.eq_replicate_iff.mpr ⟨by rw [List.length_map, List.length_range], ?_⟩
  intro b hb
  simp only [List.mem_map, List.mem_range] at hb
  obtain ⟨j, hj, rfl⟩ := hb
  rw [Finset.sum_eq_single 0]
  · simp
  · intro n hn hn0
    match n, hn0 with
    | n + 1, _ => simp [getD_replicate_self]
  · intro h0
    exact absurd (Finset.mem_range.mpr (Nat.succ_pos m)) h0

theorem unwrapCorrection_zero : unwrapCorrection 0 = 0 := by
  unfold unwrapCorrection
  rw [if_pos]
  rw [abs_zero]
  exact Real.pi_pos

theorem unwrapAux_zeros (m : ℕ) : unwrapAux 0 0 (List.replicate m 0) = List.replicate m 0 := by
  induction m with
  | zero => rfl
  | succ n ih => simp [List.replicate_succ, unwrapAux, unwrapCorrection_zero, ih]

theorem npUnwrap_zeros (m : ℕ) : npUnwrap (List.replicate m 0) = List.replicate m 0 := by
  match m with
  | 0 => rfl
  | n + 1 =>
      simp only [List.replicate_succ, npUnwrap]
      rw [unwrapAux_zeros]

theorem dcOverride_replicate (a : ℝ) (m : ℕ) (hm : 0 < m) :
    dcOverride a (List.replicate m a) = Except.ok (List.replicate m a) := by
  match m with
  | 1 => rfl
  | n + 2 => rfl

theorem sampleCompute_impulse (m k Na : ℕ) (F : List ℝ) (d : ℝ)
    (hmin : min Na (k + 1) = m) (hF : F.length = m) (hm : 0 < m) :
    sampleCompute (List.replicate (k + 1) 1) F Na d (1 :: List.replicate k 0) =
      Except.ok ⟨List.replicate m 1, List.replicate m 0, List.replicate m 0,
        List.replicate m 1, List.replicate m 0, List.replicate m 0⟩ := by
  have h1 : npFFT (1 :: List.replicate k 0) = List.replicate (k + 1) 1 := npFFT_impulse k
  have h2 : npBinop (fun (a b : ℂ) => a / b) (List.replicate (k + 1) 1)
      (List.replicate (k + 1) 1) = Except.ok (List.replicate (k + 1) 1) := by
    rw [npBinop_eq_len _ (by simp), zipWith_rep_rep]
    norm_num
  have htake : (List.replicate (k + 1) (1 : ℂ)).take Na = List.replicate m 1 := by
    rw [List.take_replicate, hmin]
  have hrho : (List.replicate m (1 : ℂ)).map Complex.abs = List.replicate m 1 := by
    simp
  have hphi : (List.replicate m (1 : ℂ)).map Complex.arg = List.replicate m 0 := by
    simp [Complex.arg_one]
  have hnsamRaw : npBinop
      (fun p f => 1 - p * C_LIGHT / (2 * Real.pi * f * 1e12 * d * 1e-3))
      (List.replicate m 0) F = Except.ok (List.replicate m 1) := by
    rw [npBinop_eq_len _ (by simp [hF]), ← hF, zipWith_rep_left]
    simp
  have hq1 : npBinop (fun n r => 4 * n / r) (List.replicate m (1 : ℝ))
      (List.replicate m 1) = Except.ok (List.replicate m 4) := by
    rw [npBinop_eq_len _ (by simp), zipWith_rep_rep]
    norm_num
  have hq2 : npBinop (fun t n => t / (n + 1) ^ 2) (List.replicate m (4 : ℝ))
      (List.replicate m 1) = Except.ok (List.replicate m 1) := by
    rw [npBinop_eq_len _ (by simp), zipWith_rep_rep]
    norm_num
  have hksamRaw : npBinop
      (fun t f => Real.log t * C_LIGHT / (2 * Real.pi * f * 1e12 * d * 1e-3))
      (List.replicate m 1) F = Except.ok (List.replicate m 0) := by
    rw [npBinop_eq_len _ (by simp [hF]), ← hF, zipWith_rep_left]
    simp
  have hasamRaw : npBinop
      (fun f k => 2 * 2 * Real.pi * f * 1e12 * k / C_LIGHT / 100)
      F (List.replicate m 0) = Except.ok (List.replicate m 0) := by
    rw [npBinop_eq_len _ (by simp [hF]), ← hF, zipWith_rep_right]
    simp
  have hepsr : npBinop (fun n k => n ^ 2 - k ^ 2) (List.replicate m (1 : ℝ))
      (List.replicate m 0) = Except.ok (List.replicate m 1) := by
    rw [npBinop_eq_len _ (by simp), zipWith_rep_rep]
    norm_num
  have hepsi : npBinop (fun n k => 2 * n * k) (List.replicate m (1 : ℝ))
      (List.replicate m 0) = Except.ok (List.replicate m 0) := by
    rw [npBinop_eq_len _ (by simp), zipWith_rep_rep]
    norm_num
  have htand : npBinop (fun x y => if x = 0 then 0 else y / x)
      (List.replicate m (1 : ℝ)) (List.replicate m 0) = Except.ok (List.replicate m 0) := by
    rw [npBinop_eq_len _ (by simp), zipWith_rep_rep]
    norm_num
  unfold sampleCompute
  rw [h1]
  simp only [h2, Bind.bind, Except.bind, htake, hrho, hphi, npUnwrap_zeros, hnsamRaw,
    dcOverride_replicate 1 m hm, hq1, hq2, hksamRaw, dcOverride_replicate 0 m hm,
    hasamRaw, hepsr, hepsi, htand]

theorem npBinop_err {α β : Type} (f : α → α → β) {xs ys : List α}
    (h : xs.length ≠ ys.length) (hx : xs.length ≠ 1) (hy : ys.length ≠ 1) :
    npBinop f xs ys =
      Except.error "ValueError: operands could not be broadcast together" := by
  unfold npBinop
  rw [if_neg h]
  rcases xs with _ | ⟨x, _ | ⟨x2, xt⟩⟩ <;> rcases ys with _ | ⟨y, _ | ⟨y2, yt⟩⟩ <;> simp_all

theorem npFFT_two : npFFT [1, 0] = [1, 1] := by
  have h := npFFT_impulse 1
  simpa [List.replicate] using h

theorem npFFT_three : npFFT [1, 0, 0] = [1, 1, 1] := by
  have h := npFFT_impulse 2
  simpa [List.replicate] using h

theorem npFFT_four : npFFT [1, 0, 0, 0] = [1, 1, 1, 1] := by
  have h := npFFT_impulse 3
  simpa [List.replicate] using h

theorem fftPhase_ref2 (samas : List (List ℝ)) (d : ℝ) :
    fftPhase [0, 1] [1, 0] samas d =
      (exceptMapList (sampleCompute [1, 1] [0, 1 / 2] 2 d) samas) >>=
        (fun outs => Except.ok ([0, 1 / 2], outs)) := by
  unfold fftPhase
  norm_num [npFFT_two, listGet, Bind.bind, Except.bind, pyHalfRound, List.range_succ]

theorem fftPhase_ref4 (samas : List (List ℝ)) (d : ℝ) :
    fftPhase [0, 1, 2, 3] [1, 0, 0, 0] samas d =
      (exceptMapList (sampleCompute [1, 1, 1, 1] [0, 1 / 4, 1 / 2] 3 d) samas) >>=
        (fun outs => Except.ok ([0, 1 / 4, 1 / 2], outs)) := by
  unfold fftPhase
  norm_num [npFFT_four, listGet, Bind.bind, Except.bind, pyHalfRound, List.range_succ]

theorem fftPhase_ref3 (samas : List (List ℝ)) (d : ℝ) :
    fftPhase [0, 1, 2] [1, 0, 0] samas d =
      (exceptMapList (sampleCompute [1, 1, 1] [0, 1 / 3] 3 d) samas) >>=
        (fun outs => Except.ok ([0, 1 / 3], outs)) := by
  unfold fftPhase
  norm_num [npFFT_three, listGet, Bind.bind, Except.bind, pyHalfRound, List.range_succ]

/-- Per-sample output of the impulse-pair scenario with two kept bins. -/
def S2out : SampleOut := ⟨[1, 1], [0, 0], [0, 0], [1, 1], [0, 0], [0, 0]⟩

/-- Per-sample output of the impulse-pair scenario with three kept bins. -/
def S3out : SampleOut :=
  ⟨[1, 1, 1], [0, 0, 0], [0, 0, 0], [1, 1, 1], [0, 0, 0], [0, 0, 0]⟩

theorem sampleCompute_imp2 (d : ℝ) :
    sampleCompute [1, 1] [0, 1 / 2] 2 d [1, 0] = Except.ok S2out := by
  have h := sampleCompute_impulse 2 1 2 [0, 1 / 2] d (by norm_num) (by norm_num) (by norm_num)
  simpa [S2out, List.replicate] using h

theorem sampleCompute_imp4 (d : ℝ) :
    sampleCompute [1, 1, 1, 1] [0, 1 / 4, 1 / 2] 3 d [1, 0, 0, 0] = Except.ok S3out := by
  have h := sampleCompute_impulse 3 3 3 [0, 1 / 4, 1 / 2] d (by norm_num) (by norm_num)
    (by norm_num)
  simpa [S3out, List.replicate] using h

theorem sampleCompute_mix_err (d : ℝ) :
    sampleCompute [1, 1] [0, 1 / 2] 2 d [1, 0, 0, 0] =
      Except.error "ValueError: operands could not be broadcast together" := by
  have herr : npBinop (fun (a b : ℂ) => a / b) [1, 1, 1, 1] [1, 1] =
      Except.error "ValueError: operands could not be broadcast together" :=
    npBinop_err _ (by norm_num) (by norm_num) (by norm_num)
  unfold sampleCompute
  simp only [npFFT_four, herr, Bind.bind, Except.bind]

theorem sampleCompute_na_err (d : ℝ) :
    sampleCompute [1, 1, 1] [0, 1 / 3] 3 d [1, 0, 0] =
      Except.error "ValueError: operands could not be broadcast together" := by
  have hunw : npUnwrap [0, 0, 0] = [0, 0, 0] := by
    simpa [List.replicate] using npUnwrap_zeros 3
  have hdiv : npBinop (fun (a b : ℂ) => a / b) [1, 1, 1] [1, 1, 1] =
      Except.ok [1, 1, 1] := by
    rw [npBinop_eq_len _ (by norm_num)]
    norm_num
  unfold sampleCompute
  rw [npFFT_three]
  simp only [hdiv, Bind.bind, Except.bind]
  norm_num [Complex.arg_one, hunw, npBinop_err]

/-- Four-point reference waveform: an impulse sampled at times 0,1,2,3 ps. -/
def refWave4 : List (ℝ × ℝ) := [(0, 1), (1, 0), (2, 0), (3, 0)]

/-- Three-point impulse waveform sampled at times 0,1,2 ps. -/
def wave3 : List (ℝ × ℝ) := [(0, 1), (1, 0), (2, 0)]

/-- Two-point impulse waveform sampled at times 0,1 ps. -/
def wave2 : List (ℝ × ℝ) := [(0, 1), (1, 0)]

theorem evalRunA :
    calculate_optical_params refWave4 [wave2] ["A"] 1 false none none =
      Except.ok ⟨[0, 1 / 2], [S2out], [warnMsg "A" 2], ["A"], true⟩ := by
  unfold calculate_optical_params calcCore
  norm_num [refWave4, wave2, refaAfterWindow, readAll, processOne, truncStep, listGet,
    pswEntry, Bind.bind, Except.bind, fftPhase_ref2, exceptMapList, sampleCompute_imp2]

theorem evalRun2 :
    calculate_optical_params wave2 [wave2, wave2] ["A", "B"] 1 false none none =
      Except.ok ⟨[0, 1 / 2], [S2out, S2out], [], ["A", "B"], true⟩ := by
  unfold calculate_optical_params calcCore
  norm_num [wave2, refaAfterWindow, readAll, processOne, truncStep, listGet,
    pswEntry, Bind.bind, Except.bind, fftPhase_ref2, exceptMapList, sampleCompute_imp2]

theorem evalSingle4 :
    calculate_optical_params refWave4 [refWave4] ["B"] 1 false none none =
      Except.ok ⟨[0, 1 / 4, 1 / 2], [S3out], [], ["B"], true⟩ := by
  unfold calculate_optical_params calcCore
  norm_num [refWave4, refaAfterWindow, readAll, processOne, truncStep, listGet,
    pswEntry, Bind.bind, Except.bind, fftPhase_ref4, exceptMapList, sampleCompute_imp4]

theorem evalBatchMix :
    calculate_optical_params refWave4 [wave2, refWave4] ["A", "B"] 1 false none none =
      Except.error
        ("计算过程中出错: " ++ "ValueError: operands could not be broadcast together") := by
  unfold calculate_optical_params calcCore
  norm_num [refWave4, wave2, refaAfterWindow, readAll, processOne, truncStep, listGet,
    pswEntry, Bind.bind, Except.bind, fftPhase_ref2, exceptMapList, sampleCompute_imp2,
    sampleCompute_mix_err]

theorem evalRun3 :
    calculate_optical_params wave3 [wave3] ["S"] 1 false none none =
      Except.error
        ("计算过程中出错: " ++ "ValueError: operands could not be broadcast together") := by
  unfold calculate_optical_params calcCore
  norm_num [wave3, refaAfterWindow, readAll, processOne, truncStep, listGet,
    pswEntry, Bind.bind, Except.bind, fftPhase_ref3, exceptMapList, sampleCompute_na_err]

/-! ### Structural facts about successful runs -/

theorem calculate_ok_iff {ref : List (ℝ × ℝ)} {samples : List (List (ℝ × ℝ))}
    {names : List String} {d : ℝ} {uw : Bool} {refW : Option WindowParams}
    {psw : Option (List (Option WindowParams))} {out : CalculationResult} :
    calculate_optical_params ref samples names d uw refW psw = Except.ok out ↔
      calcCore ref samples names d uw refW psw = Except.ok out := by
  unfold calculate_optical_params
  cases calcCore ref samples names d uw refW psw with
  | ok r => simp
  | error e => simp

theorem calcCore_ok_elim {ref : List (ℝ × ℝ)} {samples : List (List (ℝ × ℝ))}
    {names : List String} {d : ℝ} {uw : Bool} {refW : Option WindowParams}
    {psw : Option (List (Option WindowParams))} {out : CalculationResult}
    (h : calcCore ref samples names d uw refW psw = Except.ok out) :
    ∃ refa st samas F outs,
      refaAfterWindow (ref.map Prod.fst) (ref.map Prod.snd) uw refW = Except.ok refa ∧
      readAll uw psw names 0 ⟨ref.map Prod.fst, refa, ref.length, []⟩ samples =
        Except.ok (st, samas) ∧
      fftPhase st.reft st.refa samas d = Except.ok (F, outs) ∧
      out = ⟨F, outs, st.warnings, names, true⟩ := by
  unfold calcCore at h
  obtain ⟨refa, h1, h⟩ := exceptBind_ok h
  obtain ⟨pr, h2, h⟩ := exceptBind_ok h
  obtain ⟨fr, h3, h⟩ := exceptBind_ok h
  cases h
  exact ⟨refa, pr.1, pr.2, fr.1, fr.2, h1, h2, h3, rfl⟩

theorem fftPhase_ok_elim {reft refa : List ℝ} {samas : List (List ℝ)} {d : ℝ}
    {F : List ℝ} {outs : List SampleOut}
    (h : fftPhase reft refa samas d = Except.ok (F, outs)) :
    1 < reft.length ∧ F.length = reft.length / 2 + 1 ∧
    exceptMapList (sampleCompute (npFFT refa) F (pyHalfRound reft.length + 1) d) samas =
      Except.ok outs := by
  unfold fftPhase at h
  obtain ⟨t1, h1, h⟩ := exceptBind_ok h
  obtain ⟨t0, h0, h⟩ := exceptBind_ok h
  obtain ⟨os, hm, h⟩ := exceptBind_ok h
  simp only [Except.ok.injEq, Prod.mk.injEq] at h
  obtain ⟨hF, houts⟩ := h
  subst houts
  constructor
  · have := listGet_ok_lt h1
    omega
  constructor
  · rw [← hF, List.length_map, List.length_range]
  · rw [← hF]
    exact hm

theorem sampleCompute_ok_tanDelta {refFFT : List ℂ} {F : List ℝ} {Na : ℕ} {d : ℝ}
    {sama : List ℝ} {s : SampleOut}
    (h : sampleCompute refFFT F Na d sama = Except.ok s) :
    s.Epsilon_real.length = s.Epsilon_imag.length ∧
    s.TanDelta = List.zipWith (fun x y => if x = 0 then 0 else y / x)
      s.Epsilon_real s.Epsilon_imag := by
  unfold sampleCompute at h
  obtain ⟨H0full, hH, h⟩ := exceptBind_ok h
  obtain ⟨nsamRaw, hnr, h⟩ := exceptBind_ok h
  obtain ⟨nsam, hn, h⟩ := exceptBind_ok h
  obtain ⟨q1, hq1, h⟩ := exceptBind_ok h
  obtain ⟨q2, hq2, h⟩ := exceptBind_ok h
  obtain ⟨ksamRaw, hkr, h⟩ := exceptBind_ok h
  obtain ⟨ksam, hk, h⟩ := exceptBind_ok h
  obtain ⟨asamRaw, har, h⟩ := exceptBind_ok h
  obtain ⟨asam, ha, h⟩ := exceptBind_ok h
  obtain ⟨epsr, her, h⟩ := exceptBind_ok h
  obtain ⟨epsi, hei, h⟩ := exceptBind_ok h
  obtain ⟨tand, ht, h⟩ := exceptBind_ok h
  cases h
  have hlen : epsr.length = epsi.length := npBinop_ok_len_pair her hei
  rw [npBinop_eq_len _ hlen] at ht
  cases ht
  exact ⟨hlen, rfl⟩

theorem sampleCompute_ok_dc {refFFT : List ℂ} {F : List ℝ} {Na : ℕ} {d : ℝ}
    {sama : List ℝ} {s : SampleOut} (hF : 1 < F.length)
    (h : sampleCompute refFFT F Na d sama = Except.ok s) :
    1 < s.Nsam.length ∧ 1 < s.Ksam.length ∧ 1 < s.Asam.length ∧
    s.Nsam.getD 0 0 = s.Nsam.getD 1 0 ∧ s.Ksam.getD 0 0 = s.Ksam.getD 1 0 ∧
    s.Asam.getD 0 0 = s.Asam.getD 1 0 := by
  unfold sampleCompute at h
  obtain ⟨H0full, hH, h⟩ := exceptBind_ok h
  obtain ⟨nsamRaw, hnr, h⟩ := exceptBind_ok h
  obtain ⟨nsam, hn, h⟩ := exceptBind_ok h
  obtain ⟨q1, hq1, h⟩ := exceptBind_ok h
  obtain ⟨q2, hq2, h⟩ := exceptBind_ok h
  obtain ⟨ksamRaw, hkr, h⟩ := exceptBind_ok h
  obtain ⟨ksam, hk, h⟩ := exceptBind_ok h
  obtain ⟨asamRaw, har, h⟩ := exceptBind_ok h
  obtain ⟨asam, ha, h⟩ := exceptBind_ok h
  obtain ⟨epsr, her, h⟩ := exceptBind_ok h
  obtain ⟨epsi, hei, h⟩ := exceptBind_ok h
  obtain ⟨tand, ht, h⟩ := exceptBind_ok h
  cases h
  have hnrl : 1 < nsamRaw.length := by rw [npBinop_ok_len_right hnr hF]; exact hF
  have hkrl : 1 < ksamRaw.length := by rw [npBinop_ok_len_right hkr hF]; exact hF
  have harl : 1 < asamRaw.length := by rw [npBinop_ok_len_left har hF]; exact hF
  refine ⟨?_, ?_, ?_, ?_, ?_, ?_⟩
  · rw [dcOverride_ok_len hn]; exact hnrl
  · rw [dcOverride_ok_len hk]; exact hkrl
  · rw [dcOverride_ok_len ha]; exact harl
  · exact dcOverride_ok_dc hn hnrl
  · exact dcOverride_ok_dc hk hkrl
  · exact dcOverride_ok_dc ha harl

theorem zipWith_guard_getD {er ei : List ℝ} (hlen : er.length = ei.length) (i : ℕ) :
    (er.getD i 0 = 0 →
      (List.zipWith (fun x y => if x = 0 then 0 else y / x) er ei).getD i 0 = 0) ∧
    (er.getD i 0 ≠ 0 →
      (List.zipWith (fun x y => if x = 0 then 0 else y / x) er ei).getD i 0 =
        ei.getD i 0 / er.getD i 0) := by
  by_cases hi : i < er.length
  · have hz : i < (List.zipWith (fun x y => if x = 0 then 0 else y / x) er ei).length := by
      rw [List.length_zipWith]
      omega
    have hie : i < ei.length := by omega
    rw [List.getD_eq_getElem _ 0 hi, List.getD_eq_getElem _ 0 hie,
      List.getD_eq_getElem _ 0 hz, List.getElem_zipWith]
    constructor
    · intro h0
      rw [if_pos h0]
    · intro h0
      rw [if_neg h0]
  · have h1 : er.getD i 0 = 0 := by
      rw [List.getD_eq_getElem?_getD, List.getElem?_eq_none (by omega)]
      rfl
    have h2 : (List.zipWith (fun x y => if x = 0 then 0 else y / x) er ei).getD i 0 = 0 := by
      rw [List.getD_eq_getElem?_getD, List.getElem?_eq_none]
      · rfl
      · rw [List.length_zipWith]
        omega
    constructor
    · intro _
      exact h2
    · intro hne
      exact absurd h1 hne

/-! ### Claim theorems -/

/-- C6: at every frequency bin where the returned `ε' = n² − k²` is exactly 0
the returned loss tangent is exactly 0 (the elementwise division is guarded
and total, so it never raises), and at every bin where `ε' ≠ 0` the returned
loss tangent equals `ε''/ε'`. -/
theorem loss_tangent_guard (ref : List (ℝ × ℝ)) (samples : List (List (ℝ × ℝ)))
    (names : List String) (d : ℝ) (uw : Bool) (refW : Option WindowParams)
    (psw : Option (List (Option WindowParams))) (out : CalculationResult)
    (h : calculate_optical_params ref samples names d uw refW psw = Except.ok out)
    (j i : ℕ) :
    ((out.samplesOut.getD j default).Epsilon_real.getD i 0 = 0 →
      (out.samplesOut.getD j default).TanDelta.getD i 0 = 0) ∧
    ((out.samplesOut.getD j default).Epsilon_real.getD i 0 ≠ 0 →
      (out.samplesOut.getD j default).TanDelta.getD i 0 =
        (out.samplesOut.getD j default).Epsilon_imag.getD i 0 /
          (out.samplesOut.getD j default).Epsilon_real.getD i 0) := by
  rw [calculate_ok_iff] at h
  obtain ⟨refa, st, samas, F, outs, h1, h2, h3, hout⟩ := calcCore_ok_elim h
  subst hout
  obtain ⟨hN, hFlen, hmap⟩ := fftPhase_ok_elim h3
  simp only []
  by_cases hj : j < outs.length
  · have hlen := exceptMapList_ok_length hmap
    have hsc := exceptMapList_ok_getD hmap [] default j (by omega)
    obtain ⟨hel, htd⟩ := sampleCompute_ok_tanDelta hsc
    rw [htd]
    exact zipWith_guard_getD hel i
  · have hdef : outs.getD j default = default := by
      rw [List.getD_eq_getElem?_getD, List.getElem?_eq_none (by omega)]
      rfl
    rw [hdef]
    constructor
    · intro _
      rfl
    · intro hne
      exact absurd rfl hne

/-- Witness for C6: the guard instantiated on a concrete successful
two-sample run. -/
theorem loss_tangent_guard_witness :
    ∃ out, calculate_optical_params wave2 [wave2, wave2] ["A", "B"] 1 false none none =
        Except.ok out ∧
      (((out.samplesOut.getD 0 default).Epsilon_real.getD 0 0 = 0 →
        (out.samplesOut.getD 0 default).TanDelta.getD 0 0 = 0) ∧
      ((out.samplesOut.getD 0 default).Epsilon_real.getD 0 0 ≠ 0 →
        (out.samplesOut.getD 0 default).TanDelta.getD 0 0 =
          (out.samplesOut.getD 0 default).Epsilon_imag.getD 0 0 /
            (out.samplesOut.getD 0 default).Epsilon_real.getD 0 0)) :=
  ⟨_, evalRun2, loss_tangent_guard _ _ _ _ _ _ _ _ evalRun2 0 0⟩

/-- C7: in every successful run, for every returned sample block, if the kept
bin count (the length of the returned arrays) exceeds 1 then the DC bin of
`n`, `k` and `α` is a copy of bin 1; if it is exactly 1 the arrays are the
fallback values `n = [1]`, `k = [0]`, `α = [0]`. -/
theorem dc_bin_policy (ref : List (ℝ × ℝ)) (samples : List (List (ℝ × ℝ)))
    (names : List String) (d : ℝ) (uw : Bool) (refW : Option WindowParams)
    (psw : Option (List (Option WindowParams))) (out : CalculationResult)
    (h : calculate_optical_params ref samples names d uw refW psw = Except.ok out)
    (j : ℕ) :
    (1 < (out.samplesOut.getD j default).Nsam.length →
      (out.samplesOut.getD j default).Nsam.getD 0 0 =
        (out.samplesOut.getD j default).Nsam.getD 1 0 ∧
      (out.samplesOut.getD j default).Ksam.getD 0 0 =
        (out.samplesOut.getD j default).Ksam.getD 1 0 ∧
      (out.samplesOut.getD j default).Asam.getD 0 0 =
        (out.samplesOut.getD j default).Asam.getD 1 0) ∧
    ((out.samplesOut.getD j default).Nsam.length = 1 →
      (out.samplesOut.getD j default).Nsam = [1] ∧
      (out.samplesOut.getD j default).Ksam = [0] ∧
      (out.samplesOut.getD j default).Asam = [0]) := by
  rw [calculate_ok_iff] at h
  obtain ⟨refa, st, samas, F, outs, h1, h2, h3, hout⟩ := calcCore_ok_elim h
  subst hout
  obtain ⟨hN, hFlen, hmap⟩ := fftPhase_ok_elim h3
  simp only []
  have hF2 : 1 < F.length := by omega
  by_cases hj : j < outs.length
  · have hlen := exceptMapList_ok_length hmap
    have hsc := exceptMapList_ok_getD hmap [] default j (by omega)
    obtain ⟨hn2, hk2, ha2, hdcn, hdck, hdca⟩ := sampleCompute_ok_dc hF2 hsc
    constructor
    · intro _
      exact ⟨hdcn, hdck, hdca⟩
    · intro hone
      omega
  · have hdef : outs.getD j default = default := by
      rw [List.getD_eq_getElem?_getD, List.getElem?_eq_none (by omega)]
      rfl
    rw [hdef]
    constructor
    · intro hlt
      simp [default] at hlt
    · intro hone
      simp [default] at hone

/-- Witness for C7: the DC-bin policy instantiated on a concrete successful
two-sample run. -/
theorem dc_bin_policy_witness :
    ∃ out, calculate_optical_params wave2 [wave2, wave2] ["A", "B"] 1 false none none =
        Except.ok out ∧
      ((1 < (out.samplesOut.getD 0 default).Nsam.length →
        (out.samplesOut.getD 0 default).Nsam.getD 0 0 =
          (out.samplesOut.getD 0 default).Nsam.getD 1 0 ∧
        (out.samplesOut.getD 0 default).Ksam.getD 0 0 =
          (out.samplesOut.getD 0 default).Ksam.getD 1 0 ∧
        (out.samplesOut.getD 0 default).Asam.getD 0 0 =
          (out.samplesOut.getD 0 default).Asam.getD 1 0) ∧
      ((out.samplesOut.getD 0 default).Nsam.length = 1 →
        (out.samplesOut.getD 0 default).Nsam = [1] ∧
        (out.samplesOut.getD 0 default).Ksam = [0] ∧
        (out.samplesOut.getD 0 default).Asam = [0])) :=
  ⟨_, evalRun2, dc_bin_policy _ _ _ _ _ _ _ _ evalRun2 0⟩

/-- C8: every run either succeeds with the assembled result (whose success
flag is true) or fails as a whole with a single `CalculationError` carrying
the original internal message — no partial result is ever returned. -/
theorem calculation_error_wrapping (ref : List (ℝ × ℝ))
    (samples : List (List (ℝ × ℝ))) (names : List String) (d : ℝ) (uw : Bool)
    (refW : Option WindowParams) (psw : Option (List (Option WindowParams))) :
    (∃ r, calcCore ref samples names d uw refW psw = Except.ok r ∧
      calculate_optical_params ref samples names d uw refW psw = Except.ok r ∧
      r.success = true) ∨
    (∃ e, calcCore ref samples names d uw refW psw = Except.error e ∧
      calculate_optical_params ref samples names d uw refW psw =
        Except.error ("计算过程中出错: " ++ e)) := by
  cases hc : calcCore ref samples names d uw refW psw with
  | ok r =>
      left
      refine ⟨r, rfl, ?_, ?_⟩
      · unfold calculate_optical_params
        rw [hc]
      · obtain ⟨_, _, _, _, _, _, _, _, hout⟩ := calcCore_ok_elim hc
        rw [hout]
  | error e =>
      right
      refine ⟨e, rfl, ?_⟩
      unfold calculate_optical_params
      rw [hc]

/-- C3 (code bug): with a three-point reference and sample the engine keeps
`Na = round(3/2)+1 = 3` spectrum bins (Python's banker's rounding rounds
`1.5` up to `2`) but builds a frequency axis of `3//2+1 = 2` bins, so the
elementwise refractive-index formula fails to broadcast and the whole run
aborts with a `CalculationError` instead of completing with
`⌊N/2⌋+1`-length outputs. -/
theorem bin_count_mismatch_code_bug :
    pyHalfRound 3 + 1 = 3 ∧ 3 / 2 + 1 = 2 ∧
    calculate_optical_params wave3 [wave3] ["S"] 1 false none none =
      Except.error
        ("计算过程中出错: " ++ "ValueError: operands could not be broadcast together") :=
  ⟨by decide, by decide, evalRun3⟩

/-- C5: on same-length time/signal arrays `apply_tukey_window` always returns
(never raises) a sequence of the input length that is exactly `0` at every
index whose time lies outside `[t_start, t_end]`; if no time sample lies in
the window it returns the all-zero sequence. -/
theorem apply_window_zero_outside (time_data signal_data : List ℝ) (ts te al : ℝ)
    (h : time_data.length = signal_data.length) :
    ∃ w, apply_tukey_window time_data signal_data ts te al = Except.ok w ∧
      w.length = time_data.length ∧
      (∀ i, i < time_data.length →
        (time_data.getD i 0 < ts ∨ te < time_data.getD i 0) → w.getD i 0 = 0) ∧
      ((∀ t ∈ time_data, t < ts ∨ te < t) →
        w = List.replicate signal_data.length 0) := by
  unfold apply_tukey_window
  rw [if_pos h]
  by_cases hany :
      (time_data.map (fun t => decide (ts ≤ t ∧ t ≤ te))).any (fun b => b) = false
  · rw [if_pos hany]
    refine ⟨_, rfl, by simp [h], ?_, fun _ => rfl⟩
    intro i hi _
    rw [List.getD_eq_getElem?_getD, List.getElem?_replicate]
    split <;> rfl
  · rw [if_neg hany]
    refine ⟨_, rfl, ?_, ?_, ?_⟩
    · rw [placeBack_length, List.length_map]
    · intro i hi hout
      apply placeBack_getD_zero
      have hmi : i < (time_data.map (fun t => decide (ts ≤ t ∧ t ≤ te))).length := by
        rw [List.length_map]
        exact hi
      rw [List.getD_eq_getElem _ _ hmi, List.getElem_map]
      rw [decide_eq_false_iff_not]
      rw [List.getD_eq_getElem _ _ hi] at hout
      intro hc
      rcases hout with hout | hout
      · exact absurd hc.1 (by linarith)
      · exact absurd hc.2 (by linarith)
    · intro hall
      exfalso
      apply hany
      rw [List.any_eq_false]
      intro b hb
      rw [List.mem_map] at hb
      obtain ⟨t, ht, rfl⟩ := hb
      simp only [decide_eq_true_eq]
      intro hc
      rcases hall t ht with hout | hout
      · exact absurd hc.1 (by linarith)
      · exact absurd hc.2 (by linarith)

/-- Witness for C5 at a concrete degenerate window. -/
theorem apply_window_zero_outside_witness :
    ∃ w, apply_tukey_window [0, 1] [5, 7] 2 3 (1 / 2) = Except.ok w ∧
      w.length = ([0, 1] : List ℝ).length ∧
      (∀ i, i < ([0, 1] : List ℝ).length →
        (([0, 1] : List ℝ).getD i 0 < 2 ∨ 3 < ([0, 1] : List ℝ).getD i 0) →
          w.getD i 0 = 0) ∧
      ((∀ t ∈ ([0, 1] : List ℝ), t < 2 ∨ 3 < t) →
        w = List.replicate ([5, 7] : List ℝ).length 0) :=
  apply_window_zero_outside [0, 1] [5, 7] 2 3 (1 / 2) rfl

theorem tukeyWindow_two_half : tukeyWindow 2 (0.5 : ℝ) = [0, 0] := by
  unfold tukeyWindow
  rw [if_neg (by norm_num), if_neg (by norm_num), if_neg (by norm_num)]
  have hw : ⌊(0.5 : ℝ) * (((2 : ℕ) : ℝ) - 1) / 2⌋ = (0 : ℤ) := by
    rw [Int.floor_eq_zero_iff]
    constructor <;> norm_num
  simp only [hw, List.range_succ, List.range_zero, List.map_append, List.map_cons,
    List.map_nil, List.nil_append, List.cons_append]
  norm_num

/-- C2 counterexample: with `use_window = true` and no reference window dict,
the amplitude used downstream is the unwindowed signal `[1, 0]`, whereas the
claimed default windowing `apply_window(time, signal, time[0], time[-1], 0.5)`
would produce `[0, 0]` — the two differ, so absent specs do not fall back to
a default window. -/
theorem default_window_counterexample :
    refaAfterWindow [0, 1] [1, 0] true none = Except.ok [1, 0] ∧
    apply_tukey_window [0, 1] [1, 0] 0 1 (0.5 : ℝ) = Except.ok [0, 0] ∧
    ([1, 0] : List ℝ) ≠ [0, 0] := by
  refine ⟨rfl, ?_, by norm_num⟩
  unfold apply_tukey_window
  rw [if_pos (show ([0, 1] : List ℝ).length = ([1, 0] : List ℝ).length from rfl)]
  have hmask : List.map (fun t => decide ((0 : ℝ) ≤ t ∧ t ≤ 1)) [0, 1] =
      [true, true] := by
    norm_num
  rw [hmask]
  rw [if_neg (by norm_num)]
  have hsig : (([true, true]).zip ([1, 0] : List ℝ)).filterMap
      (fun p => if p.1 then some p.2 else none) = [1, 0] := rfl
  rw [hsig]
  have ht : tukeyWindow 2 ((1 : ℝ) / 2) = [0, 0] := by
    have h2 := tukeyWindow_two_half
    norm_num at h2
    exact h2
  norm_num [ht, placeBack]

/-- C2 (amended): when `use_window` is true but no window dict is supplied
(reference dict unset — `None` — or an empty dict, both falsy at line 111;
or a sample's entry absent / `None`), the waveform is *not* windowed — it
passes through unchanged; the full-range/`alpha = 0.5` defaults apply only
to individual keys missing from a supplied truthy dict. -/
theorem window_fallback_amended :
    (∀ reft refa : List ℝ, refaAfterWindow reft refa true none = Except.ok refa) ∧
    (∀ reft refa : List ℝ, ∀ p : WindowParams, p.truthy = false →
      refaAfterWindow reft refa true (some p) = Except.ok refa) ∧
    (∀ (uw : Bool) (st : LoopState) (sam : List (ℝ × ℝ)) (name : String),
      processOne uw none st sam name = processOne false none st sam name) ∧
    (∀ (reft refa : List ℝ) (ts te : ℝ), reft ≠ [] →
      refaAfterWindow reft refa true (some ⟨some ts, some te, none⟩) =
        apply_tukey_window reft refa ts te 0.5) := by
  refine ⟨fun reft refa => rfl, ?_, ?_, ?_⟩
  · intro reft refa p hp
    unfold refaAfterWindow
    show (if p.truthy = true then
        (do
          let t0 ← listGet reft 0
          let tl ← listGetLast reft
          apply_tukey_window reft refa (p.t_start.getD t0) (p.t_end.getD tl)
            (p.alpha.getD 0.5))
        else Except.ok refa) = Except.ok refa
    rw [if_neg (by rw [hp]; exact Bool.false_ne_true)]
  · intro uw st sam name
    cases uw <;> rfl
  · intro reft refa ts te hne
    obtain ⟨v, hv⟩ := Option.isSome_iff_exists.mp
      (List.getLast?_isSome.mpr hne)
    obtain ⟨x, xs, rfl⟩ := List.exists_cons_of_ne_nil hne
    simp [refaAfterWindow, listGet, listGetLast, WindowParams.truthy, hv,
      Bind.bind, Except.bind]

/-- C2 witness: the fallback behaviour instantiated at concrete inputs,
including the empty-dict reference case `⟨none, none, none⟩`. -/
theorem window_fallback_amended_witness :
    refaAfterWindow [0, 1] [1, 0] true none = Except.ok [1, 0] ∧
    refaAfterWindow [0, 1] [1, 0] true (some ⟨none, none, none⟩) =
      Except.ok [1, 0] ∧
    processOne true none ⟨[0, 1], [1, 0], 2, []⟩ [(0, 1), (1, 0)] "A" =
      processOne false none ⟨[0, 1], [1, 0], 2, []⟩ [(0, 1), (1, 0)] "A" ∧
    refaAfterWindow [0, 1] [1, 0] true (some ⟨some 2, some 3, none⟩) =
      apply_tukey_window [0, 1] [1, 0] 2 3 0.5 :=
  ⟨window_fallback_amended.1 [0, 1] [1, 0],
   window_fallback_amended.2.1 [0, 1] [1, 0] ⟨none, none, none⟩ rfl,
   window_fallback_amended.2.2.1 true ⟨[0, 1], [1, 0], 2, []⟩ [(0, 1), (1, 0)] "A",
   window_fallback_amended.2.2.2 [0, 1] [1, 0] 2 3 (by simp)⟩

/-- Decides whether the first list is an initial segment of the second. -/
def leadsWith : List Char → List Char → Bool
  | [], _ => true
  | _ :: _, [] => false
  | a :: as, b :: bs => a == b && leadsWith as bs

/-- Decides whether `needle` occurs contiguously inside the second list. -/
def hasSeq (needle : List Char) : List Char → Bool
  | [] => needle.isEmpty
  | c :: rest => leadsWith needle (c :: rest) || hasSeq needle rest

/-- The warnings a run must record: one `warnMsg` per sample whose length
differs from the (fixed) reference row count, in sample order. -/
def warnSpec (R : ℕ) : List (List (ℝ × ℝ)) → List String → ℕ → List String
  | [], _, _ => []
  | s :: rest, names, i =>
      (if s.length = R then []
       else [warnMsg (names.getD i "") (min s.length R)]) ++
        warnSpec R rest names (i + 1)

theorem processOne_warnings {uw : Bool} {entry : Option WindowParams}
    {st : LoopState} {sam : List (ℝ × ℝ)} {name : String} {p : LoopState × List ℝ}
    (h : processOne uw entry st sam name = Except.ok p) :
    p.1.refDataLen = st.refDataLen ∧ p.1.reft = (truncStep st sam name).1.reft ∧
    p.1.refa = (truncStep st sam name).1.refa ∧
    p.1.warnings = st.warnings ++
      (if sam.length = st.refDataLen then []
       else [warnMsg name (min sam.length st.refDataLen)]) := by
  have htr : (truncStep st sam name).1.refDataLen = st.refDataLen ∧
      (truncStep st sam name).1.warnings = st.warnings ++
        (if sam.length = st.refDataLen then []
         else [warnMsg name (min sam.length st.refDataLen)]) := by
    unfold truncStep
    by_cases hne : sam.length ≠ st.refDataLen
    · by_cases hgt : st.refDataLen > min sam.length st.refDataLen
      · simp [hne, hgt]
      · simp [hne, hgt]
    · simp [hne, not_not.mp hne]
  have hfst : p.1 = (truncStep st sam name).1 := by
    unfold processOne at h
    rcases uw with _ | _ <;> rcases entry with _ | q
    · cases h
      rfl
    · cases h
      rfl
    · cases h
      rfl
    · obtain ⟨t0, h0, h⟩ := exceptBind_ok h
      obtain ⟨tl, hl, h⟩ := exceptBind_ok h
      obtain ⟨w, hw, h⟩ := exceptBind_ok h
      cases h
      rfl
  rw [hfst]
  exact ⟨htr.1, rfl, rfl, htr.2⟩

theorem readAll_warnings {uw : Bool} {psw : Option (List (Option WindowParams))}
    {names : List String} :
    ∀ (samples : List (List (ℝ × ℝ))) (i : ℕ) (st stf : LoopState)
      (samas : List (List ℝ)),
      readAll uw psw names i st samples = Except.ok (stf, samas) →
      stf.refDataLen = st.refDataLen ∧
      stf.warnings = st.warnings ++ warnSpec st.refDataLen samples names i := by
  intro samples
  induction samples with
  | nil =>
      intro i st stf samas h
      unfold readAll at h
      simp only [Except.ok.injEq, Prod.mk.injEq] at h
      rw [← h.1]
      exact ⟨rfl, by simp [warnSpec]⟩
  | cons s rest ih =>
      intro i st stf samas h
      unfold readAll at h
      obtain ⟨name, hname, h⟩ := exceptBind_ok h
      obtain ⟨pr, hpr, h⟩ := exceptBind_ok h
      obtain ⟨rst, hrst, h⟩ := exceptBind_ok h
      simp only [Except.ok.injEq, Prod.mk.injEq] at h
      obtain ⟨hst, hsa⟩ := h
      obtain ⟨hR, _, _, hw⟩ := processOne_warnings hpr
      have hih := ih (i + 1) pr.1 rst.1 rst.2 (by rw [← hrst])
      rw [← hst]
      constructor
      · rw [hih.1, hR]
      · rw [hih.2, hw, hR]
        have hgetD : names.getD i "" = name := listGet_ok_getD "" hname
        rw [List.getD_eq_getElem?_getD] at hgetD
        simp [warnSpec, hgetD, List.append_assoc]

theorem processOne_mismatch {uw : Bool} {entry : Option WindowParams}
    {st : LoopState} {sam : List (ℝ × ℝ)} {name : String} {p : LoopState × List ℝ}
    (hle : st.reft.length ≤ st.refDataLen)
    (h : processOne uw entry st sam name = Except.ok p)
    (hne : sam.length ≠ st.refDataLen) :
    p.2.length = min sam.length st.refDataLen ∧
    p.1.reft.length = min st.reft.length (min sam.length st.refDataLen) ∧
    p.1.warnings = st.warnings ++ [warnMsg name (min sam.length st.refDataLen)] := by
  obtain ⟨hR, hreft, hrefa, hw⟩ := processOne_warnings h
  have htr : (truncStep st sam name).1.reft.length =
      min st.reft.length (min sam.length st.refDataLen) := by
    unfold truncStep
    by_cases hgt : st.refDataLen > min sam.length st.refDataLen
    · simp only [hne, if_true, hgt, if_pos hne, if_pos hgt]
      rw [List.length_take]
      omega
    · simp only [if_pos hne, if_neg hgt]
      omega
  have h2 : p.2.length = (truncStep st sam name).2.length := by
    unfold processOne at h
    rcases uw with _ | _ <;> rcases entry with _ | q
    · cases h
      simp
    · cases h
      simp
    · cases h
      simp
    · obtain ⟨t0, h0, h⟩ := exceptBind_ok h
      obtain ⟨tl, hl, h⟩ := exceptBind_ok h
      obtain ⟨w, hwk, h⟩ := exceptBind_ok h
      cases h
      simp [apply_tukey_ok_len hwk]
  have h3 : (truncStep st sam name).2.length = min sam.length st.refDataLen := by
    unfold truncStep
    simp only [if_pos hne]
    rw [List.length_take]
    omega
  refine ⟨by rw [h2, h3], ?_, ?_⟩
  · rw [hreft]
    exact htr
  · rw [hw, if_neg hne]

/-- C1 counterexample: a run with a length-100-vs-80-style mismatch (here 4
vs 2) records exactly one warning, but its text only names the sample and the
truncated point count — the decimal digits of the reference's original length
(`4`) never occur in it, and it is not the `DataLengthMismatchError` text
that would state both original lengths.  The claim that the warning states
the sample's and reference's original lengths is therefore false. -/
theorem warning_content_counterexample :
    calculate_optical_params refWave4 [wave2] ["A"] 1 false none none =
      Except.ok ⟨[0, 1 / 2], [S2out], [warnMsg "A" 2], ["A"], true⟩ ∧
    warnMsg "A" 2 = "文件 A 的数据点数与参考文件不匹配，已自动截断至 2 个点" ∧
    hasSeq ("4".toList) ((warnMsg "A" 2).toList) = false ∧
    warnMsg "A" 2 ≠ dataLengthMismatchMessage "A" 4 2 2 :=
  ⟨evalRunA, rfl, by decide, by decide⟩

/-- C1 (amended): every sample whose length differs from the reference's row
count is truncated, together with the reference arrays, to
`min(len(sample), len(reference))` before windowing and FFT, and exactly one
warning is recorded for it — but the warning only names the sample and the
truncated length, not the two original lengths.  Part one characterises the
whole warning list of any successful run; part two shows the amplitude
sequence a mismatching sample contributes (the one later windowed and
FFT-ed) and the reference time axis are cut to the truncated length, with
exactly one warning appended. -/
theorem truncation_warning_amended :
    (∀ (ref : List (ℝ × ℝ)) (samples : List (List (ℝ × ℝ))) (names : List String)
      (d : ℝ) (uw : Bool) (refW : Option WindowParams)
      (psw : Option (List (Option WindowParams))) (out : CalculationResult),
      calculate_optical_params ref samples names d uw refW psw = Except.ok out →
      out.warnings = warnSpec ref.length samples names 0) ∧
    (∀ (uw : Bool) (entry : Option WindowParams) (st : LoopState)
      (sam : List (ℝ × ℝ)) (name : String) (p : LoopState × List ℝ),
      st.reft.length ≤ st.refDataLen →
      processOne uw entry st sam name = Except.ok p →
      sam.length ≠ st.refDataLen →
      p.2.length = min sam.length st.refDataLen ∧
      p.1.reft.length = min st.reft.length (min sam.length st.refDataLen) ∧
      p.1.warnings = st.warnings ++ [warnMsg name (min sam.length st.refDataLen)]) := by
  constructor
  · intro ref samples names d uw refW psw out h
    rw [calculate_ok_iff] at h
    obtain ⟨refa, st, samas, F, outs, h1, h2, h3, hout⟩ := calcCore_ok_elim h
    subst hout
    have hwr := readAll_warnings samples 0 ⟨ref.map Prod.fst, refa, ref.length, []⟩
      st samas h2
    simpa using hwr.2
  · intro uw entry st sam name p hle h hne
    exact processOne_mismatch hle h hne

/-- Witness for C1 (amended), instantiated on the concrete 4-vs-2 mismatch
run and on one concrete loop iteration. -/
theorem truncation_warning_amended_witness :
    (⟨[0, 1 / 2], [S2out], [warnMsg "A" 2], ["A"], true⟩ : CalculationResult).warnings =
      warnSpec refWave4.length [wave2] ["A"] 0 ∧
    (∃ p, processOne false none ⟨[0, 1, 2, 3], [1, 0, 0, 0], 4, []⟩ wave2 "A" =
        Except.ok p ∧
      p.2.length = min wave2.length 4 ∧
      p.1.reft.length = min ([0, 1, 2, 3] : List ℝ).length (min wave2.length 4) ∧
      p.1.warnings = [] ++ [warnMsg "A" (min wave2.length 4)]) := by
  constructor
  · exact truncation_warning_amended.1 refWave4 [wave2] ["A"] 1 false none none _ evalRunA
  · have hp : processOne false none ⟨[0, 1, 2, 3], [1, 0, 0, 0], 4, []⟩ wave2 "A" =
        Except.ok (⟨[0, 1], [1, 0], 4, [warnMsg "A" 2]⟩, [1, 0]) := by
      norm_num [processOne, truncStep, wave2]
    exact ⟨_, hp,
      truncation_warning_amended.2 false none ⟨[0, 1, 2, 3], [1, 0, 0, 0], 4, []⟩
        wave2 "A" _ (by norm_num) hp (by norm_num [wave2])⟩

theorem processOne_amp_congr {s s2 : List (ℝ × ℝ)}
    (h : s.map Prod.snd = s2.map Prod.snd) (uw : Bool)
    (entry : Option WindowParams) (st : LoopState) (name : String) :
    processOne uw entry st s name = processOne uw entry st s2 name := by
  have hlen : s.length = s2.length := by
    rw [← List.length_map s Prod.snd, h, List.length_map]
  have h1 : (truncStep st s name).1 = (truncStep st s2 name).1 := by
    unfold truncStep
    rw [hlen]
    split
    · rfl
    · rfl
  have h2 : (truncStep st s name).2.map Prod.snd =
      (truncStep st s2 name).2.map Prod.snd := by
    unfold truncStep
    rw [hlen]
    split
    · show (s.take (s2.length ⊓ st.refDataLen)).map Prod.snd =
        (s2.take (s2.length ⊓ st.refDataLen)).map Prod.snd
      rw [List.map_take, List.map_take, h]
    · exact h
  simp only [processOne]
  rw [h1, h2]

theorem readAll_amp_congr {uw : Bool} {psw : Option (List (Option WindowParams))}
    {names : List String} :
    ∀ (samples samples2 : List (List (ℝ × ℝ))) (i : ℕ) (st : LoopState),
      samples.map (List.map Prod.snd) = samples2.map (List.map Prod.snd) →
      readAll uw psw names i st samples = readAll uw psw names i st samples2 := by
  intro samples
  induction samples with
  | nil =>
      intro samples2 i st h
      cases samples2 with
      | nil => rfl
      | cons a b => simp at h
  | cons s rest ih =>
      intro samples2 i st h
      cases samples2 with
      | nil => simp at h
      | cons s2 rest2 =>
          simp only [List.map_cons, List.cons.injEq] at h
          obtain ⟨hh, ht⟩ := h
          have hih : ∀ (i2 : ℕ) (st2 : LoopState),
              readAll uw psw names i2 st2 rest = readAll uw psw names i2 st2 rest2 :=
            fun i2 st2 => ih rest2 i2 st2 ht
          unfold readAll
          simp only [processOne_amp_congr hh, hih]

/-- C9: the engine's result does not depend on the sample waveforms' time
columns: two runs whose sample lists agree on their amplitude columns (and
hence lengths) produce identical results — only the amplitude column of each
sample is read, and sample windowing uses the reference's time axis. -/
theorem sample_time_column_irrelevance (ref : List (ℝ × ℝ))
    (samples samples2 : List (List (ℝ × ℝ))) (names : List String) (d : ℝ)
    (uw : Bool) (refW : Option WindowParams)
    (psw : Option (List (Option WindowParams)))
    (h : samples.map (List.map Prod.snd) = samples2.map (List.map Prod.snd)) :
    calculate_optical_params ref samples names d uw refW psw =
      calculate_optical_params ref samples2 names d uw refW psw := by
  have hr : ∀ (i : ℕ) (st : LoopState),
      readAll uw psw names i st samples = readAll uw psw names i st samples2 :=
    fun i st => readAll_amp_congr samples samples2 i st h
  unfold calculate_optical_params calcCore
  simp only [hr]

/-- Witness for C9: two concrete runs differing only in the sample's time
column coincide. -/
theorem sample_time_column_irrelevance_witness :
    calculate_optical_params wave2 [[(0, 1), (1, 0)]] ["A"] 1 false none none =
      calculate_optical_params wave2 [[(5, 1), (9, 0)]] ["A"] 1 false none none :=
  sample_time_column_irrelevance wave2 [[(0, 1), (1, 0)]] [[(5, 1), (9, 0)]]
    ["A"] 1 false none none rfl

/-- The amplitude sequence one loop iteration contributes for a sample of a
given length, expressed against a reference time axis and the reference row
count: truncation to `min` length, then the optional per-sample windowing. -/
noncomputable def samaCanon (uw : Bool) (entry : Option WindowParams)
    (reft : List ℝ) (R : ℕ) (s : List (ℝ × ℝ)) : Except String (List ℝ) :=
  let m := min s.length R
  let rt := reft.take m
  let sama := (s.take m).map Prod.snd
  match uw, entry with
  | true, some p => do
      let t0 ← listGet rt 0
      let tl ← listGetLast rt
      apply_tukey_window rt sama (p.t_start.getD t0) (p.t_end.getD tl) (p.alpha.getD 0.5)
  | _, _ => Except.ok sama

theorem exceptMap_ok {α β : Type} {x : Except String α} {g : α → β} {b : β}
    (h : Except.map g x = Except.ok b) : ∃ a, x = Except.ok a ∧ b = g a := by
  cases x with
  | ok a =>
      refine ⟨a, rfl, ?_⟩
      simp [Except.map] at h
      exact h.symm
  | error e => simp [Except.map] at h

theorem refaAfterWindow_ok_len {reft refa0 : List ℝ} {uw : Bool}
    {refW : Option WindowParams} {refa : List ℝ}
    (h : refaAfterWindow reft refa0 uw refW = Except.ok refa) :
    refa.length = refa0.length := by
  unfold refaAfterWindow at h
  rcases uw with _ | _ <;> rcases refW with _ | p
  · cases h; rfl
  · cases h; rfl
  · cases h; rfl
  · replace h : (if p.truthy = true then
        (do
          let t0 ← listGet reft 0
          let tl ← listGetLast reft
          apply_tukey_window reft refa0 (p.t_start.getD t0) (p.t_end.getD tl)
            (p.alpha.getD 0.5))
        else Except.ok refa0) = Except.ok refa := h
    by_cases ht : p.truthy = true
    · rw [if_pos ht] at h
      obtain ⟨t0, h0, h⟩ := exceptBind_ok h
      obtain ⟨tl, hl, h⟩ := exceptBind_ok h
      exact apply_tukey_ok_len h
    · rw [if_neg ht] at h
      cases h
      rfl

theorem samaCanon_take (uw : Bool) (entry : Option WindowParams) (reft : List ℝ)
    (R k : ℕ) (s : List (ℝ × ℝ)) (hk : min s.length R ≤ k) :
    samaCanon uw entry (reft.take k) R s = samaCanon uw entry reft R s := by
  simp only [samaCanon]
  rw [List.take_take, Nat.min_eq_left hk]

theorem processOne_char (uw : Bool) (entry : Option WindowParams)
    (st : LoopState) (s : List (ℝ × ℝ)) (name : String)
    (hreft : st.reft.length ≤ st.refDataLen)
    (hrefa : st.refa.length ≤ st.refDataLen) :
    processOne uw entry st s name =
      Except.map (fun sama =>
        (⟨st.reft.take (min s.length st.refDataLen),
          st.refa.take (min s.length st.refDataLen), st.refDataLen,
          st.warnings ++ (if s.length = st.refDataLen then []
            else [warnMsg name (min s.length st.refDataLen)])⟩, sama))
        (samaCanon uw entry st.reft st.refDataLen s) := by
  obtain ⟨rt0, ra0, R0, ws0⟩ := st
  simp only at hreft hrefa
  have hstate : (truncStep ⟨rt0, ra0, R0, ws0⟩ s name).1 =
      ⟨rt0.take (min s.length R0), ra0.take (min s.length R0), R0,
        ws0 ++ (if s.length = R0 then [] else [warnMsg name (min s.length R0)])⟩ := by
    unfold truncStep
    by_cases hne : s.length ≠ R0
    · by_cases hgt : R0 > min s.length R0
      · simp [hne, hgt]
      · simp only [if_pos hne, if_neg hgt]
        have hm : min s.length R0 = R0 := by omega
        rw [hm, List.take_of_length_le hreft, List.take_of_length_le hrefa]
        simp [hne]
    · have heq : s.length = R0 := not_not.mp hne
      rw [if_neg hne, if_pos heq]
      rw [heq, Nat.min_self, List.take_of_length_le hreft, List.take_of_length_le hrefa]
      simp
  have hsama : (truncStep ⟨rt0, ra0, R0, ws0⟩ s name).2.map Prod.snd =
      (s.take (min s.length R0)).map Prod.snd := by
    unfold truncStep
    by_cases hne : s.length ≠ R0
    · simp [hne]
    · have heq : s.length = R0 := not_not.mp hne
      rw [if_neg hne]
      rw [heq, Nat.min_self, ← heq, List.take_length]
  have hrt : (truncStep ⟨rt0, ra0, R0, ws0⟩ s name).1.reft =
      rt0.take (min s.length R0) := by
    rw [hstate]
  rcases uw with _ | _ <;> rcases entry with _ | p
  · simp only [processOne, samaCanon, Except.map]
    rw [hstate, hsama]
  · simp only [processOne, samaCanon, Except.map]
    rw [hstate, hsama]
  · simp only [processOne, samaCanon, Except.map]
    rw [hstate, hsama]
  · simp only [processOne, samaCanon]
    rw [hrt, hsama, hstate]
    cases h0 : listGet (rt0.take (min s.length R0)) 0 with
    | error e => simp [Bind.bind, Except.bind, Except.map, h0]
    | ok t0 =>
        cases hl : listGetLast (rt0.take (min s.length R0)) with
        | error e => simp [Bind.bind, Except.bind, Except.map, h0, hl]
        | ok tl =>
            cases hw : apply_tukey_window (rt0.take (min s.length R0))
                ((s.take (min s.length R0)).map Prod.snd) (p.t_start.getD t0)
                (p.t_end.getD tl) (p.alpha.getD 0.5) with
            | error e => simp [Bind.bind, Except.bind, Except.map, h0, hl, hw]
            | ok w => simp [Bind.bind, Except.bind, Except.map, h0, hl, hw]

theorem readAll_uniform {uw : Bool} {psw : Option (List (Option WindowParams))}
    {names : List String} (L R : ℕ) (reft0 refa0 : List ℝ)
    (hr0 : reft0.length = R) (ha0 : refa0.length = R) :
    ∀ (samples : List (List (ℝ × ℝ))) (i k : ℕ) (ws : List String)
      (stf : LoopState) (samas : List (List ℝ)),
      (∀ s ∈ samples, s.length = L) →
      (k = R ∨ k = min L R) →
      readAll uw psw names i ⟨reft0.take k, refa0.take k, R, ws⟩ samples =
        Except.ok (stf, samas) →
      samas.length = samples.length ∧
      (∀ j2, j2 < samples.length →
        samaCanon uw (pswEntry psw (i + j2)) reft0 R (samples.getD j2 []) =
          Except.ok (samas.getD j2 [])) ∧
      (samples ≠ [] → stf.reft = reft0.take (min L R) ∧
        stf.refa = refa0.take (min L R)) := by
  intro samples
  induction samples with
  | nil =>
      intro i k ws stf samas hL hk h
      unfold readAll at h
      simp only [Except.ok.injEq, Prod.mk.injEq] at h
      refine ⟨by simp [← h.2], ?_, ?_⟩
      · intro j2 hj2
        simp at hj2
      · intro hne
        exact absurd rfl hne
  | cons s rest ih =>
      intro i k ws stf samas hL hk h
      have hsL : s.length = L := hL s (List.mem_cons_self s rest)
      have hmle : min s.length R ≤ k := by
        rcases hk with hk | hk <;> omega
      unfold readAll at h
      obtain ⟨name, hname, h⟩ := exceptBind_ok h
      obtain ⟨pr, hpr, h⟩ := exceptBind_ok h
      obtain ⟨rst, hrst, h⟩ := exceptBind_ok h
      simp only [Except.ok.injEq, Prod.mk.injEq] at h
      obtain ⟨hst, hsa⟩ := h
      rw [processOne_char uw (pswEntry psw i) _ s name
        (by simp only [List.length_take]; omega)
        (by simp only [List.length_take]; omega)] at hpr
      obtain ⟨sama, hcan, hpr2⟩ := exceptMap_ok hpr
      simp only at hcan hpr2
      rw [samaCanon_take uw (pswEntry psw i) reft0 R k s hmle] at hcan
      have htk : (reft0.take k).take (min s.length R) = reft0.take (min L R) := by
        rw [List.take_take, Nat.min_eq_left hmle, hsL]
      have hta : (refa0.take k).take (min s.length R) = refa0.take (min L R) := by
        rw [List.take_take, Nat.min_eq_left hmle, hsL]
      have hrest := ih (i + 1) (min L R)
        (ws ++ if s.length = R then [] else [warnMsg name (min s.length R)])
        rst.1 rst.2 (fun s2 hs2 => hL s2 (List.mem_cons_of_mem s hs2))
        (Or.inr rfl)
        (by rw [← hrst, hpr2, htk, hta])
      constructor
      · rw [← hsa]
        simp [hrest.1]
      constructor
      · intro j2 hj2
        match j2 with
        | 0 =>
            rw [← hsa]
            simp only [List.getD_cons_zero]
            rw [hpr2]
            exact hcan
        | j3 + 1 =>
            rw [← hsa]
            simp only [List.getD_cons_succ]
            have := hrest.2.1 j3 (by simpa using hj2)
            rw [show i + 1 + j3 = i + (j3 + 1) by omega] at this
            exact this
      · intro _
        cases rest with
        | nil =>
            unfold readAll at hrst
            simp only [Except.ok.injEq] at hrst
            rw [← hst, ← hrst, hpr2]
            exact ⟨htk, hta⟩
        | cons r2 rest2 =>
            rw [← hst]
            exact hrest.2.2 (by simp)

theorem fftPhase_single {reft refa : List ℝ} {samas : List (List ℝ)} {d : ℝ}
    {F : List ℝ} {outs : List SampleOut} (j : ℕ) (hj : j < samas.length)
    (h : fftPhase reft refa samas d = Except.ok (F, outs)) :
    fftPhase reft refa [samas.getD j []] d =
      Except.ok (F, [outs.getD j default]) := by
  unfold fftPhase at h ⊢
  obtain ⟨t1, h1, h⟩ := exceptBind_ok h
  obtain ⟨t0, h0, h⟩ := exceptBind_ok h
  obtain ⟨os, hm, h⟩ := exceptBind_ok h
  simp only [Except.ok.injEq, Prod.mk.injEq] at h
  obtain ⟨hF, houts⟩ := h
  subst houts
  have hsc := exceptMapList_ok_getD hm [] default j hj
  rw [hF] at hsc
  rw [h1]
  simp only [Bind.bind, Except.bind]
  rw [h0]
  simp only [exceptMapList, hsc, Bind.bind, Except.bind, hF]

/-- C4 counterexample: against a four-point reference, the batch run with a
two-point sample followed by a four-point sample aborts with a
`CalculationError` (the first sample's truncation of the reference arrays
poisons the second sample, whose spectrum can no longer be divided by the
truncated reference spectrum), while each of the two single-sample runs
succeeds — so batch results are not identical to single-sample results. -/
theorem multi_sample_coupling_counterexample :
    calculate_optical_params refWave4 [wave2, refWave4] ["A", "B"] 1 false none none =
      Except.error
        ("计算过程中出错: " ++ "ValueError: operands could not be broadcast together") ∧
    calculate_optical_params refWave4 [refWave4] ["B"] 1 false none none =
      Except.ok ⟨[0, 1 / 4, 1 / 2], [S3out], [], ["B"], true⟩ ∧
    calculate_optical_params refWave4 [wave2] ["A"] 1 false none none =
      Except.ok ⟨[0, 1 / 2], [S2out], [warnMsg "A" 2], ["A"], true⟩ :=
  ⟨evalBatchMix, evalSingle4, evalRunA⟩

/-- C4 (amended): when all sample waveforms have one common length, a
successful batch run is per-sample identical to the single-sample runs: the
run with only the `j`-th sample (same reference, thickness, window flag and
the `j`-th window entry) also succeeds, with the same frequency axis and the
same per-sample arrays.  (With samples of differing lengths the claim fails:
the loop's truncation of the reference couples later samples to earlier
ones.) -/
theorem multi_sample_independence_amended (ref : List (ℝ × ℝ))
    (samples : List (List (ℝ × ℝ))) (names : List String) (d : ℝ) (uw : Bool)
    (refW : Option WindowParams) (psw : Option (List (Option WindowParams)))
    (L : ℕ) (out : CalculationResult) (j : ℕ)
    (hL : ∀ s ∈ samples, s.length = L) (hj : j < samples.length)
    (hok : calculate_optical_params ref samples names d uw refW psw = Except.ok out) :
    ∃ out1, calculate_optical_params ref [samples.getD j []] [names.getD j ""] d uw
        refW (some [pswEntry psw j]) = Except.ok out1 ∧
      out1.F = out.F ∧
      out1.samplesOut.getD 0 default = out.samplesOut.getD j default := by
  rw [calculate_ok_iff] at hok
  obtain ⟨refa, st, samas, F, outs, h1, h2, h3, hout⟩ := calcCore_ok_elim hok
  subst hout
  have hr0 : (ref.map Prod.fst).length = ref.length := List.length_map _ _
  have ha0 : refa.length = ref.length := by
    rw [refaAfterWindow_ok_len h1, List.length_map]
  have htr : (ref.map Prod.fst).take ref.length = ref.map Prod.fst :=
    List.take_of_length_le (le_of_eq hr0)
  have hta : refa.take ref.length = refa := List.take_of_length_le (le_of_eq ha0)
  have h2b : readAll uw psw names 0
      ⟨(ref.map Prod.fst).take ref.length, refa.take ref.length, ref.length, []⟩
      samples = Except.ok (st, samas) := by
    rw [htr, hta]
    exact h2
  obtain ⟨hlen, hcanon, hne⟩ := readAll_uniform L ref.length (ref.map Prod.fst) refa
    hr0 ha0 samples 0 ref.length [] st samas hL (Or.inl rfl) h2b
  have hsamples_ne : samples ≠ [] := by
    intro hnil
    rw [hnil] at hj
    simp at hj
  obtain ⟨hstreft, hstrefa⟩ := hne hsamples_ne
  have hcj := hcanon j hj
  rw [Nat.zero_add] at hcj
  have hmem : samples.getD j [] ∈ samples := by
    rw [List.getD_eq_getElem _ _ hj]
    exact samples.getElem_mem hj
  have hsj : (samples.getD j []).length = L := hL _ hmem
  have hsingle_read : readAll uw (some [pswEntry psw j]) [names.getD j ""] 0
      ⟨ref.map Prod.fst, refa, ref.length, []⟩ [samples.getD j []] =
      Except.ok
        (⟨(ref.map Prod.fst).take (min (samples.getD j []).length ref.length),
          refa.take (min (samples.getD j []).length ref.length), ref.length,
          [] ++ (if (samples.getD j []).length = ref.length then []
            else [warnMsg (names.getD j "")
              (min (samples.getD j []).length ref.length)])⟩,
          [samas.getD j []]) := by
    unfold readAll
    have hn : listGet [names.getD j ""] 0 = Except.ok (names.getD j "") := rfl
    rw [hn]
    simp only [Bind.bind, Except.bind]
    rw [processOne_char uw (pswEntry (some [pswEntry psw j]) 0) _ _ _
      (le_of_eq hr0) (le_of_eq ha0)]
    have hpe : pswEntry (some [pswEntry psw j]) 0 = pswEntry psw j := rfl
    rw [hpe]
    simp only []
    rw [hcj]
    simp only [Except.map, Bind.bind, Except.bind, readAll]
  have hjs : j < samas.length := by
    rw [hlen]
    exact hj
  have hfs := fftPhase_single j hjs h3
  have hq1 : (ref.map Prod.fst).take (min (samples.getD j []).length ref.length) =
      st.reft := by
    rw [hsj, hstreft]
  have hq2 : refa.take (min (samples.getD j []).length ref.length) = st.refa := by
    rw [hsj, hstrefa]
  have hcore : calcCore ref [samples.getD j []] [names.getD j ""] d uw refW
      (some [pswEntry psw j]) = Except.ok
      ⟨F, [outs.getD j default],
        [] ++ (if (samples.getD j []).length = ref.length then []
          else [warnMsg (names.getD j "")
            (min (samples.getD j []).length ref.length)]),
        [names.getD j ""], true⟩ := by
    simp only [calcCore]
    rw [h1]
    simp only [Bind.bind, Except.bind]
    rw [hsingle_read]
    simp only [Bind.bind, Except.bind]
    rw [hq1, hq2, hfs]
  refine ⟨_, calculate_ok_iff.mpr hcore, rfl, rfl⟩

/-- Witness for C4 (amended): instantiated on a concrete successful
two-sample batch run with both samples of length 2. -/
theorem multi_sample_independence_amended_witness :
    ∃ out1, calculate_optical_params wave2
        [([wave2, wave2] : List (List (ℝ × ℝ))).getD 0 []]
        [(["A", "B"] : List String).getD 0 ""] 1 false none
        (some [pswEntry none 0]) = Except.ok out1 ∧
      out1.F =
        (⟨[0, 1 / 2], [S2out, S2out], [], ["A", "B"], true⟩ : CalculationResult).F ∧
      out1.samplesOut.getD 0 default =
        (⟨[0, 1 / 2], [S2out, S2out], [], ["A", "B"], true⟩ :
          CalculationResult).samplesOut.getD 0 default :=
  multi_sample_independence_amended wave2 [wave2, wave2] ["A", "B"] 1 false none none
    2 _ 0
    (by
      intro s hs
      rcases List.mem_cons.mp hs with rfl | hs2
      · rfl
      · rcases List.mem_cons.mp hs2 with rfl | h3
        · rfl
        · simp at h3)
    (by norm_num) evalRun2
